import Mathlib

/-!
Shallow embedding of the Core Web Vitals analyzer (src/app.js).

JavaScript numbers are modelled as rationals (ℚ); a JS `null`/missing value
is modelled as `Option.none`.  JS strings are Lean `String`s.  Each Lean
definition mirrors one function of `src/app.js`, translated clause by clause.
-/

namespace CWV

/-- The floor of a rational, as integer division of its numerator by its
denominator (the characterisation of `Rat.floor_def`). -/
def ratFloor (q : ℚ) : Int := q.num / (q.den : Int)

/-- `Math.round` of JavaScript: round to the nearest integer, ties toward
positive infinity (`Math.round(0.5) = 1`, `Math.round(-0.5) = 0`). -/
def jsRound (q : ℚ) : Int := ratFloor (q + 1/2)

/-- Rendering step of `toFixed`: the already-scaled integer `n` printed
with a decimal point before its last `d` digits, zero-padded as needed. -/
def fixedFromInt (n : Int) (d : Nat) : String :=
  let sign : List Char := if n < 0 then ['-'] else []
  let digits : List Char := (toString n.natAbs).data
  let padded : List Char :=
    if digits.length < d + 1 then
      List.replicate (d + 1 - digits.length) '0' ++ digits
    else digits
  if d = 0 then String.mk (sign ++ padded)
  else
    String.mk (sign ++ padded.take (padded.length - d) ++
      '.' :: padded.drop (padded.length - d))

/-- `Number.prototype.toFixed(d)`: pick the integer `n` minimising
`|n / 10^d - q|`, ties toward the larger `n`, and print it with `d`
digits after the decimal point.  (Exact rational rounding; the binary
double-precision representation of the receiver is abstracted away.) -/
def jsToFixed (q : ℚ) (d : Nat) : String :=
  fixedFromInt (ratFloor (q * (10 : ℚ) ^ d + 1/2)) d

/-- `String(v)` for a JS number `v`, restricted to the values this program
produces: integers print as their decimal form; a non-integral rational with
a terminating decimal expansion prints as its exact decimal form; other
rationals (never produced by the program) fall back to Lean's rational
notation.  The shortest-round-trip formatting of IEEE doubles is abstracted
to exact decimal printing. -/
def jsNumToString (q : ℚ) : String :=
  if q.den = 1 then toString q.num
  else
    -- smallest d ≤ 15 with q * 10^d integral, if any
    match (List.range 16).find? (fun d => (q * (10 : ℚ) ^ d).den = 1) with
    | some d => jsToFixed q d
    | none => toString q

/-- One row of the `THRESHOLDS` table of src/app.js. -/
structure Threshold where
  good : ℚ
  poor : ℚ
  unit : String
  label : String
deriving DecidableEq, Repr

/-- The `THRESHOLDS` constant of src/app.js: the six recognized metric kinds
with their good/poor boundaries, units and labels; any other key is absent
(`THRESHOLDS[m]` is `undefined`). -/
def THRESHOLDS (metric : String) : Option Threshold :=
  if metric = "LCP" then some ⟨2500, 4000, "ms", "Largest Contentful Paint"⟩
  else if metric = "FID" then some ⟨100, 300, "ms", "First Input Delay"⟩
  else if metric = "CLS" then some ⟨1/10, 1/4, "", "Cumulative Layout Shift"⟩
  else if metric = "TTFB" then some ⟨800, 1800, "ms", "Time to First Byte"⟩
  else if metric = "FCP" then some ⟨1800, 3000, "ms", "First Contentful Paint"⟩
  else if metric = "INP" then some ⟨200, 500, "ms", "Interaction to Next Paint"⟩
  else none

/-- `getRating(metric, value)` of src/app.js. -/
def getRating (metric : String) (value : Option ℚ) : String :=
  match value with
  | none => "na"
  | some v =>
    match THRESHOLDS metric with
    | none => "na"
    | some t =>
      if v ≤ t.good then "good"
      else if v ≤ t.poor then "needs-improvement"
      else "poor"

/-- `getScoreRating(score)` of src/app.js. -/
def getScoreRating (score : Option ℚ) : String :=
  match score with
  | none => "na"
  | some s =>
    if s ≥ 90 then "good"
    else if s ≥ 50 then "needs-improvement"
    else "poor"

/-- `formatValue(metric, value)` of src/app.js. -/
def formatValue (metric : String) (value : Option ℚ) : String :=
  match value with
  | none => "N/A"
  | some v =>
    match THRESHOLDS metric with
    | none => jsNumToString v
    | some t =>
      if metric = "CLS" then jsToFixed v 3
      else if t.unit = "ms" ∧ v ≥ 1000 then jsToFixed (v / 1000) 2 ++ " s"
      else toString (jsRound v) ++ " " ++ t.unit

/-- One entry of `data.loadingExperience.metrics` (CrUX field data): the
object may omit `percentile` or hold `null` there. -/
structure CruxMetric where
  percentile : Option ℚ

/-- One entry of `data.lighthouseResult.audits` (Lighthouse lab data). -/
structure AuditEntry where
  numericValue : Option ℚ

/-- The parts of the provider response read by `extractMetrics`.  The
optional-chaining paths `data.loadingExperience?.metrics`,
`data.lighthouseResult?.audits` and
`data.lighthouseResult?.categories?.performance?.score` are each collapsed
into one `Option` at this boundary; a key lookup on a JS object is a
function to `Option`. -/
structure RawData where
  loadingExperienceMetrics : Option (String → Option CruxMetric)
  lighthouseAudits : Option (String → Option AuditEntry)
  performanceScore : Option ℚ

/-- The record returned by `extractMetrics` of src/app.js. -/
structure MetricSet where
  score : Option ℚ
  LCP : Option ℚ
  FID : Option ℚ
  CLS : Option ℚ
  TTFB : Option ℚ
  FCP : Option ℚ
  INP : Option ℚ

/-- `numericAudit(audits, id)` of src/app.js:
`audits[id]?.numericValue` rounded when non-null, else null. -/
def numericAudit (audits : String → Option AuditEntry) (id : String) :
    Option ℚ :=
  match (audits id).bind (·.numericValue) with
  | some val => some (jsRound val : Int)
  | none => none

/-- `extractMetrics(data)` of src/app.js.  `crux` and `audits` default to
the empty object when their optional chain is null (`|| {}`); `cruxVal` is
`crux[key]?.percentile ?? null`; each metric follows the source's fallback
chain line by line. -/
def extractMetrics (data : RawData) : MetricSet :=
  let crux : String → Option CruxMetric :=
    data.loadingExperienceMetrics.getD (fun _ => none)
  let audits : String → Option AuditEntry :=
    data.lighthouseAudits.getD (fun _ => none)
  let cruxVal : String → Option ℚ := fun key => (crux key).bind (·.percentile)
  let lcp := (cruxVal "LARGEST_CONTENTFUL_PAINT_MS").orElse
    (fun _ => numericAudit audits "largest-contentful-paint")
  let fid := cruxVal "FIRST_INPUT_DELAY_MS"
  let cls :=
    match (crux "CUMULATIVE_LAYOUT_SHIFT_SCORE").bind (·.percentile) with
    | some p => some (p / 100)
    | none => numericAudit audits "cumulative-layout-shift"
  let fcp := (cruxVal "FIRST_CONTENTFUL_PAINT_MS").orElse
    (fun _ => numericAudit audits "first-contentful-paint")
  let inp := ((cruxVal "INTERACTION_TO_NEXT_PAINT").orElse
    (fun _ => cruxVal "EXPERIMENTAL_INTERACTION_TO_NEXT_PAINT"))
  let ttfb := (cruxVal "EXPERIMENTAL_TIME_TO_FIRST_BYTE").orElse
    (fun _ => numericAudit audits "server-response-time")
  { score := data.performanceScore.map (fun s => (jsRound (s * 100) : Int))
    LCP := lcp, FID := fid, CLS := cls, TTFB := ttfb, FCP := fcp, INP := inp }

/-- The field-data percentile `crux[key]?.percentile ?? null` seen by
`extractMetrics` (with `crux` defaulted to the empty object). -/
def cruxPercentile (data : RawData) (key : String) : Option ℚ :=
  ((data.loadingExperienceMetrics.getD (fun _ => none)) key).bind
    (·.percentile)

/-- The raw lab value `audits[id]?.numericValue` seen by `numericAudit`
(with `audits` defaulted to the empty object), before rounding. -/
def labNumericValue (data : RawData) (id : String) : Option ℚ :=
  ((data.lighthouseAudits.getD (fun _ => none)) id).bind (·.numericValue)

/-- `MAX_HISTORY` of src/app.js. -/
def MAX_HISTORY : Nat := 50

/-- `saveToHistory(entry)` of src/app.js, as a function of the history list
it read back from storage: `history.unshift(entry)` prepends, then
`history.length = MAX_HISTORY` truncates to the first `MAX_HISTORY`
elements when over capacity.  The returned list is what
`localStorage.setItem` persists (the whole snapshot, serialized). -/
def saveToHistory {α : Type} (history : List α) (entry : α) : List α :=
  let h := entry :: history
  if h.length > MAX_HISTORY then h.take MAX_HISTORY else h

/-- `currentResults.splice(idx, 1)` of src/app.js (the remove-button
handler), with JavaScript `Array.prototype.splice` index semantics: a
negative start counts back from the end clamped at 0, a start beyond the
length is clamped to the length; one element at the resulting position is
removed (none when the position is the length). -/
def removeAt {α : Type} (l : List α) (idx : Int) : List α :=
  let len : Int := l.length
  let start : Nat := (if idx < 0 then max (len + idx) 0 else min idx len).toNat
  l.take start ++ l.drop (start + 1)

/-- A JavaScript value producible by `JSON.parse`. -/
inductive Json where
  | null
  | bool (b : Bool)
  | num (q : ℚ)
  | str (s : String)
  | arr (elems : List Json)
  | obj (members : List (String × Json))

/-- JavaScript truthiness of a `JSON.parse` result: `null`, `false`, `0`
and the empty string are falsy; every array and object is truthy. -/
def jsTruthy : Json → Bool
  | .null => false
  | .bool b => b
  | .num q => q ≠ 0
  | .str s => s ≠ ""
  | .arr _ => true
  | .obj _ => true

/-- JSON insignificant whitespace. -/
def skipWs : List Char → List Char
  | c :: cs =>
    if c = ' ' ∨ c = '\t' ∨ c = '\n' ∨ c = '\r' then skipWs cs else c :: cs
  | [] => []

/-- Value of a hexadecimal digit. -/
def hexVal (c : Char) : Option Nat :=
  if '0' ≤ c ∧ c ≤ '9' then some (c.toNat - '0'.toNat)
  else if 'a' ≤ c ∧ c ≤ 'f' then some (c.toNat - 'a'.toNat + 10)
  else if 'A' ≤ c ∧ c ≤ 'F' then some (c.toNat - 'A'.toNat + 10)
  else none

/-- Body of a JSON string literal, after the opening quote: accumulates
decoded characters (reversed) until the closing quote, decoding the JSON
escape sequences and rejecting raw control characters.  `\uXXXX` decodes to
the scalar of that code unit (surrogate-pair recombination is out of the
model's scope).  Fueled; the fuel is given as at least the input length. -/
def jsonStringBody : Nat → List Char → List Char → Option (String × List Char)
  | 0, _, _ => none
  | _ + 1, acc, '"' :: rest => some (String.mk acc.reverse, rest)
  | fuel + 1, acc, '\\' :: c :: rest =>
    if c = '"' then jsonStringBody fuel ('"' :: acc) rest
    else if c = '\\' then jsonStringBody fuel ('\\' :: acc) rest
    else if c = '/' then jsonStringBody fuel ('/' :: acc) rest
    else if c = 'b' then jsonStringBody fuel ('\x08' :: acc) rest
    else if c = 'f' then jsonStringBody fuel ('\x0c' :: acc) rest
    else if c = 'n' then jsonStringBody fuel ('\n' :: acc) rest
    else if c = 'r' then jsonStringBody fuel ('\x0d' :: acc) rest
    else if c = 't' then jsonStringBody fuel ('\t' :: acc) rest
    else if c = 'u' then
      match rest with
      | h1 :: h2 :: h3 :: h4 :: rest2 =>
        match hexVal h1, hexVal h2, hexVal h3, hexVal h4 with
        | some a, some b, some c2, some d =>
          jsonStringBody fuel
            (Char.ofNat (((a * 16 + b) * 16 + c2) * 16 + d) :: acc) rest2
        | _, _, _, _ => none
      | _ => none
    else none
  | fuel + 1, acc, c :: rest =>
    if c.toNat < 32 then none else jsonStringBody fuel (c :: acc) rest
  | _, _, [] => none

/-- Numeric value of a list of decimal digits. -/
def digitsVal (ds : List Char) : Nat :=
  ds.foldl (fun n c => n * 10 + (c.toNat - '0'.toNat)) 0

/-- A JSON number literal: `-? int frac? exp?`, with the JSON rule that the
integer part is a single `0` or starts with a nonzero digit. -/
def jsonNumber (cs : List Char) : Option (ℚ × List Char) :=
  let (neg, cs1) :=
    match cs with
    | '-' :: t => (true, t)
    | _ => (false, cs)
  match cs1 with
  | c :: t =>
    if c.isDigit then
      let (intDigits, rest) :=
        if c = '0' then ([c], t) else (c :: t.takeWhile Char.isDigit,
          t.dropWhile Char.isDigit)
      let ip : Nat := digitsVal intDigits
      let (fracDigits, rest2) :=
        match rest with
        | '.' :: t2 => (t2.takeWhile Char.isDigit, t2.dropWhile Char.isDigit)
        | _ => ([], rest)
      let fracBad : Bool :=
        match rest with
        | '.' :: _ => fracDigits.isEmpty
        | _ => false
      if fracBad then none
      else
        let mantissa : ℚ :=
          (ip : ℚ) + (digitsVal fracDigits : ℚ) / (10 : ℚ) ^ fracDigits.length
        let expPart : Option (Int × List Char) :=
          match rest2 with
          | e :: t3 =>
            if e = 'e' ∨ e = 'E' then
              let (esign, t4) :=
                match t3 with
                | '+' :: t5 => ((1 : Int), t5)
                | '-' :: t5 => ((-1 : Int), t5)
                | _ => ((1 : Int), t3)
              let eds := t4.takeWhile Char.isDigit
              if eds = [] then none
              else some (esign * digitsVal eds, t4.dropWhile Char.isDigit)
            else some (0, rest2)
          | [] => some (0, rest2)
        match expPart with
        | none => none
        | some (ex, rest3) =>
          let v : ℚ := mantissa * (10 : ℚ) ^ ex
          some (if neg then -v else v, rest3)
    else none
  | [] => none

/-- Consume an expected keyword suffix (`rue`, `alse`, `ull`). -/
def expectChars : List Char → List Char → Option (List Char)
  | [], rest => some rest
  | e :: es, c :: cs => if c = e then expectChars es cs else none
  | _ :: _, [] => none

mutual

/-- A JSON value, by recursive descent; mirrors the grammar accepted by
`JSON.parse`.  Fueled; `jsonParse` supplies ample fuel. -/
def jsonValue : Nat → List Char → Option (Json × List Char)
  | 0, _ => none
  | fuel + 1, cs =>
    match skipWs cs with
    | [] => none
    | c :: rest =>
      if c = '"' then
        match jsonStringBody (rest.length + 1) [] rest with
        | some (s, r) => some (.str s, r)
        | none => none
      else if c = 't' then
        (expectChars ['r', 'u', 'e'] rest).map (fun r => (.bool true, r))
      else if c = 'f' then
        (expectChars ['a', 'l', 's', 'e'] rest).map (fun r => (.bool false, r))
      else if c = 'n' then
        (expectChars ['u', 'l', 'l'] rest).map (fun r => (.null, r))
      else if c = '[' then
        match skipWs rest with
        | ']' :: r => some (.arr [], r)
        | _ => match jsonItems fuel rest with
          | some (vs, r) => some (.arr vs, r)
          | none => none
      else if c = '{' then
        match skipWs rest with
        | '}' :: r => some (.obj [], r)
        | _ => match jsonMembers fuel rest with
          | some (ms, r) => some (.obj ms, r)
          | none => none
      else if c = '-' ∨ c.isDigit then
        (jsonNumber (c :: rest)).map (fun (q, r) => (.num q, r))
      else none

/-- Comma-separated array elements up to the closing bracket. -/
def jsonItems : Nat → List Char → Option (List Json × List Char)
  | 0, _ => none
  | fuel + 1, cs =>
    match jsonValue fuel cs with
    | none => none
    | some (v, r) =>
      match skipWs r with
      | ',' :: r2 =>
        match jsonItems fuel r2 with
        | some (vs, r3) => some (v :: vs, r3)
        | none => none
      | ']' :: r2 => some ([v], r2)
      | _ => none

/-- Comma-separated object members up to the closing brace. -/
def jsonMembers : Nat → List Char → Option (List (String × Json) × List Char)
  | 0, _ => none
  | fuel + 1, cs =>
    match skipWs cs with
    | '"' :: r =>
      match jsonStringBody (r.length + 1) [] r with
      | none => none
      | some (k, r2) =>
        match skipWs r2 with
        | ':' :: r3 =>
          match jsonValue fuel r3 with
          | none => none
          | some (v, r4) =>
            match skipWs r4 with
            | ',' :: r5 =>
              match jsonMembers fuel r5 with
              | some (ms, r6) => some ((k, v) :: ms, r6)
              | none => none
            | '}' :: r5 => some ([(k, v)], r5)
            | _ => none
        | _ => none
    | _ => none

end

/-- `JSON.parse(s)`: parse one JSON value and require only whitespace after
it; `none` models a thrown `SyntaxError`. -/
def jsonParse (s : String) : Option Json :=
  match jsonValue (2 * (s.length + 1)) s.data with
  | some (j, rest) => if skipWs rest = [] then some j else none
  | none => none

/-- `getHistory()` of src/app.js, as a function of the durable-storage
state at key `cwv_history` (`none` when the key is missing).
`localStorage.getItem` yields `null` for a missing key and `JSON.parse`
coerces `null` to the string `"null"`; a parse failure is caught and
yields `[]`; a successful parse yields `JSON.parse(...) || []`, i.e. the
parsed value when truthy, else `[]`. -/
def getHistory (stored : Option String) : Json :=
  match jsonParse (stored.getD "null") with
  | none => Json.arr []
  | some j => if jsTruthy j then j else Json.arr []

/-- One persisted history record as written by `saveToHistory` in the
submit handler of src/app.js: the stored fields read back by
`exportHistoryCSV`. -/
structure HistRecord where
  url : String
  strategy : String
  score : Option ℚ
  lcpVal : Option ℚ
  fidVal : Option ℚ
  clsVal : Option ℚ
  ttfbVal : Option ℚ
  fcpVal : Option ℚ
  inpVal : Option ℚ
  date : String

/-- `String(v).replace(/"/g, '""')` at character level: every double-quote
character is doubled, all other characters pass through. -/
def escQuotes : List Char → List Char
  | [] => []
  | c :: cs => (if c = '"' then ['"', '"'] else [c]) ++ escQuotes cs

/-- One encoded CSV field: `` `"${String(v).replace(/"/g, '""')}"` `` of
src/app.js — the escaped text enclosed in double quotes. -/
def csvField (s : String) : String :=
  String.mk ('"' :: escQuotes s.data ++ ['"'])

/-- `v ?? ''` followed by `String(v)` for the optional numeric fields of a
history record: the number's string form when present, else the empty
string. -/
def csvNumField : Option ℚ → String
  | some v => jsNumToString v
  | none => ""

/-- The `headers` array of `exportHistoryCSV`. -/
def csvHeaders : List String :=
  ["Date", "URL", "Strategy", "Score", "LCP", "FID", "CLS", "TTFB", "FCP",
    "INP"]

/-- One data row of `exportHistoryCSV`, before quoting: `new
Date(h.date).toISOString()` is modelled by the ambient date-normalization
function `iso` (the `Date` object is an external collaborator), the rest
reads the record's stored fields. -/
def csvRow (iso : String → String) (h : HistRecord) : List String :=
  [iso h.date, h.url, h.strategy, csvNumField h.score, csvNumField h.lcpVal,
    csvNumField h.fidVal, csvNumField h.clsVal, csvNumField h.ttfbVal,
    csvNumField h.fcpVal, csvNumField h.inpVal]

/-- `exportHistoryCSV()` of src/app.js as a function of the history it
read: `none` when the history is empty (the early `return`: no file is
produced), else the CSV text handed to the `Blob` — header row first, each
row's fields quoted and comma-joined, rows newline-joined. -/
def exportHistoryCSV (iso : String → String) (history : List HistRecord) :
    Option String :=
  if history.length = 0 then none
  else
    some (String.intercalate "\n"
      ((csvHeaders :: history.map (csvRow iso)).map
        (fun r => String.intercalate "," (r.map csvField))))

/-- Standard CSV parsing of one quoted field body (after the opening
quote): text up to an unpaired closing quote, un-doubling quote pairs. -/
def csvUnquoteBody : List Char → Option (List Char)
  | [] => none
  | ['"'] => some []
  | '"' :: '"' :: cs => (csvUnquoteBody cs).map ('"' :: ·)
  | '"' :: _ :: _ => none
  | c :: cs => (csvUnquoteBody cs).map (c :: ·)

/-- Standard CSV parsing of one fully quoted field. -/
def csvParseField (s : String) : Option String :=
  match s.data with
  | '"' :: rest => (csvUnquoteBody rest).map String.mk
  | _ => none

/-! Theorems. -/

/-- Every row of the threshold table has `good < poor`. -/
theorem thresholds_good_lt_poor (m : String) (t : Threshold)
    (h : THRESHOLDS m = some t) : t.good < t.poor := by
  unfold THRESHOLDS at h
  split_ifs at h <;> simp_all <;> subst h <;> norm_num

/-- C1: for every recognized MetricKind and present value `v`,
`getRating` returns good iff `v ≤ good`, poor iff `v > poor`, and
needs-improvement otherwise (both comparisons inclusive); an absent value
or an unrecognized kind rates not-applicable. -/
theorem getRating_spec :
    (∀ metric t, THRESHOLDS metric = some t → ∀ v : ℚ,
      (getRating metric (some v) = "good" ↔ v ≤ t.good) ∧
      (getRating metric (some v) = "poor" ↔ t.poor < v) ∧
      (getRating metric (some v) = "needs-improvement" ↔
        t.good < v ∧ v ≤ t.poor)) ∧
    (∀ metric, getRating metric none = "na") ∧
    (∀ metric v, THRESHOLDS metric = none → getRating metric v = "na") := by
  refine ⟨?_, fun _ => rfl, ?_⟩
  · intro metric t ht v
    have hlt := thresholds_good_lt_poor metric t ht
    simp only [getRating, ht]
    split_ifs with h1 h2
    · exact ⟨iff_of_true rfl h1,
        iff_of_false (by decide) (not_lt.mpr (by linarith)),
        iff_of_false (by decide) (fun hx => absurd h1 (not_le.mpr hx.1))⟩
    · exact ⟨iff_of_false (by decide) h1,
        iff_of_false (by decide) (not_lt.mpr h2),
        iff_of_true rfl ⟨not_le.mp h1, h2⟩⟩
    · exact ⟨iff_of_false (by decide) h1,
        iff_of_true rfl (not_le.mp h2),
        iff_of_false (by decide) (fun hx => h2 hx.2)⟩
  · intro metric v h
    rcases v with _ | v
    · rfl
    · simp [getRating, h]

/-- Witness for C1 at concrete inputs: LCP at exactly its good boundary
rates good, and an unrecognized kind rates not-applicable. -/
theorem getRating_spec_witness :
    getRating "LCP" (some 2500) = "good" ∧
    getRating "XYZ" (some 1) = "na" :=
  ⟨(getRating_spec.1 "LCP" ⟨2500, 4000, "ms", "Largest Contentful Paint"⟩
      (by decide) 2500).1.mpr (by decide),
    getRating_spec.2.2 "XYZ" (some 1) (by decide)⟩

/-- C6: `getScoreRating` maps an absent score to not-applicable and is
inclusive at 90 and 50: `s ≥ 90` is good, `50 ≤ s < 90` is
needs-improvement, `s < 50` is poor; in particular at 90, 89, 50 and 49. -/
theorem getScoreRating_spec :
    getScoreRating none = "na" ∧
    (∀ s : ℚ,
      (getScoreRating (some s) = "good" ↔ 90 ≤ s) ∧
      (getScoreRating (some s) = "needs-improvement" ↔ 50 ≤ s ∧ s < 90) ∧
      (getScoreRating (some s) = "poor" ↔ s < 50)) ∧
    getScoreRating (some 90) = "good" ∧
    getScoreRating (some 89) = "needs-improvement" ∧
    getScoreRating (some 50) = "needs-improvement" ∧
    getScoreRating (some 49) = "poor" := by
  refine ⟨rfl, ?_, by decide, by decide, by decide, by decide⟩
  intro s
  simp only [getScoreRating, ge_iff_le]
  split_ifs with h1 h2
  · exact ⟨iff_of_true rfl h1,
      iff_of_false (by decide) (fun hx => absurd h1 (not_le.mpr hx.2)),
      iff_of_false (by decide) (not_lt.mpr (by linarith))⟩
  · exact ⟨iff_of_false (by decide) h1,
      iff_of_true rfl ⟨h2, not_le.mp h1⟩,
      iff_of_false (by decide) (not_lt.mpr h2)⟩
  · exact ⟨iff_of_false (by decide) h1,
      iff_of_false (by decide) (fun hx => h2 hx.1),
      iff_of_true rfl (not_le.mp h2)⟩

/-- `ratFloor` computes the floor (`Rat.floor_def`). -/
theorem ratFloor_eq_floor (q : ℚ) : ratFloor q = ⌊q⌋ := Rat.floor_def.symm

/-- `ratFloor` at a value bracketed between `n` and `n + 1`. -/
theorem ratFloor_eq_of (q : ℚ) (n : Int) (h1 : (n : ℚ) ≤ q)
    (h2 : q < n + 1) : ratFloor q = n := by
  rw [ratFloor_eq_floor]
  exact Int.floor_eq_iff.mpr ⟨h1, h2⟩

/-- `jsToFixed` once the scaled value is bracketed. -/
theorem jsToFixed_eq_of (q : ℚ) (d : Nat) (n : Int)
    (h1 : (n : ℚ) ≤ q * (10 : ℚ) ^ d + 1/2)
    (h2 : q * (10 : ℚ) ^ d + 1/2 < n + 1) :
    jsToFixed q d = fixedFromInt n d := by
  rw [jsToFixed, ratFloor_eq_of _ n h1 h2]

/-- `jsRound` at a bracketed value. -/
theorem jsRound_eq_of (q : ℚ) (n : Int) (h1 : (n : ℚ) ≤ q + 1/2)
    (h2 : q + 1/2 < n + 1) : jsRound q = n :=
  ratFloor_eq_of _ n h1 h2

/-- The seconds branch of `formatValue`: a recognized ms-unit metric at a
value of at least 1000. -/
theorem formatValue_seconds (metric : String) (t : Threshold)
    (ht : THRESHOLDS metric = some t) (hunit : t.unit = "ms") (v : ℚ)
    (hv : 1000 ≤ v) :
    formatValue metric (some v) = jsToFixed (v / 1000) 2 ++ " s" := by
  unfold THRESHOLDS at ht
  split_ifs at ht with h1 h2 h3 h4 h5 h6 <;>
    simp only [Option.some.injEq] at ht
  · subst h1; cases ht; simp [formatValue, THRESHOLDS, hv]
  · subst h2; cases ht; simp [formatValue, THRESHOLDS, hv]
  · subst h3; cases ht; exact absurd hunit (by decide)
  · subst h4; cases ht; simp [formatValue, THRESHOLDS, hv]
  · subst h5; cases ht; simp [formatValue, THRESHOLDS, hv]
  · subst h6; cases ht; simp [formatValue, THRESHOLDS, hv]

/-- The integer branch of `formatValue`: a recognized ms-unit metric at a
value below 1000. -/
theorem formatValue_integer (metric : String) (t : Threshold)
    (ht : THRESHOLDS metric = some t) (hunit : t.unit = "ms") (v : ℚ)
    (hv : v < 1000) :
    formatValue metric (some v) = toString (jsRound v) ++ " " ++ t.unit := by
  unfold THRESHOLDS at ht
  split_ifs at ht with h1 h2 h3 h4 h5 h6 <;>
    simp only [Option.some.injEq] at ht
  · subst h1; cases ht; simp [formatValue, THRESHOLDS]; intro hc; linarith
  · subst h2; cases ht; simp [formatValue, THRESHOLDS]; intro hc; linarith
  · subst h3; cases ht; exact absurd hunit (by decide)
  · subst h4; cases ht; simp [formatValue, THRESHOLDS]; intro hc; linarith
  · subst h5; cases ht; simp [formatValue, THRESHOLDS]; intro hc; linarith
  · subst h6; cases ht; simp [formatValue, THRESHOLDS]; intro hc; linarith

/-- C5 counterexample: `formatValue` renders LCP 1800 as `"1.80 s"` — 1800
is ≥ 1000, so the seconds rule of the code (and of the claim's own general
rule) applies — not as `"1800 ms"` as the claim's example states. -/
theorem formatValue_1800_counterexample :
    formatValue "LCP" (some 1800) = "1.80 s" ∧
    formatValue "LCP" (some 1800) ≠ "1800 ms" := by
  have h : formatValue "LCP" (some 1800) = "1.80 s" := by
    have h1 : formatValue "LCP" (some 1800) =
        jsToFixed ((1800 : ℚ) / 1000) 2 ++ " s" := by
      simp [formatValue, THRESHOLDS]
      norm_num
    rw [h1, jsToFixed_eq_of _ _ 180 (by norm_num) (by norm_num)]
    decide
  exact ⟨h, by rw [h]; decide⟩

/-- C5 (amended): every recognized time-unit metric value ≥ 1000 renders
in seconds with two decimals and an `" s"` suffix; every smaller present
time-unit value renders as a rounded integer with the unit suffix; CLS
always renders with three decimals and no suffix; in particular
`formatValue` gives `"1.80 s"` for LCP 1800, `"800 ms"` for LCP 800,
`"2.50 s"` for LCP 2500, `"0.123"` for CLS 0.1234, and `"N/A"` for an
absent LCP. -/
theorem formatValue_spec_amended :
    (∀ metric t, THRESHOLDS metric = some t → t.unit = "ms" →
      ∀ v : ℚ, 1000 ≤ v →
        formatValue metric (some v) = jsToFixed (v / 1000) 2 ++ " s") ∧
    (∀ metric t, THRESHOLDS metric = some t → t.unit = "ms" →
      ∀ v : ℚ, v < 1000 →
        formatValue metric (some v) = toString (jsRound v) ++ " " ++ t.unit) ∧
    (∀ v : ℚ, formatValue "CLS" (some v) = jsToFixed v 3) ∧
    formatValue "LCP" (some 1800) = "1.80 s" ∧
    formatValue "LCP" (some 800) = "800 ms" ∧
    formatValue "LCP" (some 2500) = "2.50 s" ∧
    formatValue "CLS" (some (0.1234 : ℚ)) = "0.123" ∧
    formatValue "LCP" none = "N/A" := by
  refine ⟨formatValue_seconds, formatValue_integer,
    fun v => by simp [formatValue, THRESHOLDS], ?_, ?_, ?_, ?_, rfl⟩
  · have h1 : formatValue "LCP" (some 1800) =
        jsToFixed ((1800 : ℚ) / 1000) 2 ++ " s" := by
      simp [formatValue, THRESHOLDS]
      norm_num
    rw [h1, jsToFixed_eq_of _ _ 180 (by norm_num) (by norm_num)]
    decide
  · have h1 : formatValue "LCP" (some 800) =
        toString (jsRound (800 : ℚ)) ++ " " ++ "ms" := by
      simp [formatValue, THRESHOLDS]
      norm_num
    rw [h1, jsRound_eq_of _ 800 (by norm_num) (by norm_num)]
    decide
  · have h1 : formatValue "LCP" (some 2500) =
        jsToFixed ((2500 : ℚ) / 1000) 2 ++ " s" := by
      simp [formatValue, THRESHOLDS]
      norm_num
    rw [h1, jsToFixed_eq_of _ _ 250 (by norm_num) (by norm_num)]
    decide
  · have h1 : formatValue "CLS" (some (0.1234 : ℚ)) =
        jsToFixed (0.1234 : ℚ) 3 := by
      simp [formatValue, THRESHOLDS]
    rw [h1, jsToFixed_eq_of _ _ 123 (by norm_num) (by norm_num)]
    decide

/-- Witness for C5 (amended) at LCP 2500 and LCP 400. -/
theorem formatValue_spec_amended_witness :
    formatValue "LCP" (some 2500) = jsToFixed ((2500 : ℚ) / 1000) 2 ++ " s" ∧
    formatValue "LCP" (some 400) =
      toString (jsRound (400 : ℚ)) ++ " " ++ "ms" :=
  ⟨formatValue_spec_amended.1 "LCP"
      ⟨2500, 4000, "ms", "Largest Contentful Paint"⟩ (by decide) rfl 2500
      (by norm_num),
    formatValue_spec_amended.2.1 "LCP"
      ⟨2500, 4000, "ms", "Largest Contentful Paint"⟩ (by decide) rfl 400
      (by norm_num)⟩

/-- C10: in `formatValue` the absent check precedes the threshold lookup:
every kind formats an absent value as the placeholder, and the
raw-default-string rule for unrecognized kinds applies only to present
values. -/
theorem formatValue_absent_precedence :
    (∀ metric, formatValue metric none = "N/A") ∧
    (∀ metric v, THRESHOLDS metric = none →
      formatValue metric (some v) = jsNumToString v) := by
  refine ⟨fun _ => rfl, fun metric v h => ?_⟩
  simp [formatValue, h]

/-- Witness for C10 at the unrecognized kind `XYZ`. -/
theorem formatValue_absent_precedence_witness :
    formatValue "XYZ" none = "N/A" ∧
    formatValue "XYZ" (some 7) = jsNumToString 7 :=
  ⟨formatValue_absent_precedence.1 "XYZ",
    formatValue_absent_precedence.2 "XYZ" 7 (by decide)⟩

/-- C3: LCP fallback chain of the Metric Extractor — a present field-data
percentile passes through unchanged; else a present lab numericValue is
rounded to the nearest integer; else LCP is absent.  Concretely: field
2600 yields 2600, lab 3123.7 yields 3124, neither yields absent. -/
theorem extract_lcp_spec :
    (∀ data p, cruxPercentile data "LARGEST_CONTENTFUL_PAINT_MS" = some p →
      (extractMetrics data).LCP = some p) ∧
    (∀ data v, cruxPercentile data "LARGEST_CONTENTFUL_PAINT_MS" = none →
      labNumericValue data "largest-contentful-paint" = some v →
      (extractMetrics data).LCP = some ((jsRound v : Int) : ℚ)) ∧
    (∀ data, cruxPercentile data "LARGEST_CONTENTFUL_PAINT_MS" = none →
      labNumericValue data "largest-contentful-paint" = none →
      (extractMetrics data).LCP = none) ∧
    (extractMetrics
      ⟨some (fun k => if k = "LARGEST_CONTENTFUL_PAINT_MS" then
          some ⟨some 2600⟩ else none),
        none, none⟩).LCP = some 2600 ∧
    (extractMetrics
      ⟨none,
        some (fun id => if id = "largest-contentful-paint" then
          some ⟨some (3123.7 : ℚ)⟩ else none),
        none⟩).LCP = some 3124 ∧
    (extractMetrics ⟨none, none, none⟩).LCP = none := by
  refine ⟨?_, ?_, ?_, ?_, ?_, rfl⟩
  · intro data p h
    simp only [cruxPercentile] at h
    simp [extractMetrics, h, Option.orElse]
  · intro data v h hl
    simp only [cruxPercentile] at h
    simp only [labNumericValue] at hl
    simp [extractMetrics, numericAudit, h, hl, Option.orElse]
  · intro data h hl
    simp only [cruxPercentile] at h
    simp only [labNumericValue] at hl
    simp [extractMetrics, numericAudit, h, hl, Option.orElse]
  · rfl
  · have hr : jsRound (3123.7 : ℚ) = 3124 :=
      jsRound_eq_of _ _ (by norm_num) (by norm_num)
    simp [extractMetrics, numericAudit, hr]

/-- Witness for C3 at one-entry field and lab lookup tables. -/
theorem extract_lcp_spec_witness :
    (extractMetrics
      ⟨some (fun k => if k = "LARGEST_CONTENTFUL_PAINT_MS" then
          some ⟨some 1200⟩ else none),
        none, none⟩).LCP = some 1200 :=
  extract_lcp_spec.1 _ 1200 rfl

/-- C4 counterexample: a lab-only CLS numericValue of 0.08 is rounded by
`numericAudit` to 0, not passed through as 0.08 — the claim's lab example
contradicts the code's rounding. -/
theorem extract_cls_lab_counterexample :
    (extractMetrics
      ⟨none,
        some (fun id => if id = "cumulative-layout-shift" then
          some ⟨some (0.08 : ℚ)⟩ else none),
        none⟩).CLS = some 0 ∧
    (some (0 : ℚ) : Option ℚ) ≠ some (0.08 : ℚ) := by
  constructor
  · have hr : jsRound (0.08 : ℚ) = 0 :=
      jsRound_eq_of _ _ (by norm_num) (by norm_num)
    simp [extractMetrics, numericAudit, hr]
  · intro hc
    rw [Option.some.injEq] at hc
    norm_num at hc

/-- C4 (amended): CLS from a present field percentile is the percentile
divided by 100 (15 yields 0.15); else a present lab numericValue is
rounded to the nearest integer like every other lab value (0.08 yields 0,
not 0.08); else CLS is absent. -/
theorem extract_cls_spec_amended :
    (∀ data p, cruxPercentile data "CUMULATIVE_LAYOUT_SHIFT_SCORE" = some p →
      (extractMetrics data).CLS = some (p / 100)) ∧
    (∀ data v, cruxPercentile data "CUMULATIVE_LAYOUT_SHIFT_SCORE" = none →
      labNumericValue data "cumulative-layout-shift" = some v →
      (extractMetrics data).CLS = some ((jsRound v : Int) : ℚ)) ∧
    (∀ data, cruxPercentile data "CUMULATIVE_LAYOUT_SHIFT_SCORE" = none →
      labNumericValue data "cumulative-layout-shift" = none →
      (extractMetrics data).CLS = none) ∧
    (extractMetrics
      ⟨some (fun k => if k = "CUMULATIVE_LAYOUT_SHIFT_SCORE" then
          some ⟨some 15⟩ else none),
        none, none⟩).CLS = some (0.15 : ℚ) ∧
    (extractMetrics
      ⟨none,
        some (fun id => if id = "cumulative-layout-shift" then
          some ⟨some (0.08 : ℚ)⟩ else none),
        none⟩).CLS = some 0 := by
  refine ⟨?_, ?_, ?_, ?_, ?_⟩
  · intro data p h
    simp only [cruxPercentile] at h
    simp [extractMetrics, h]
  · intro data v h hl
    simp only [cruxPercentile] at h
    simp only [labNumericValue] at hl
    simp [extractMetrics, numericAudit, h, hl]
  · intro data h hl
    simp only [cruxPercentile] at h
    simp only [labNumericValue] at hl
    simp [extractMetrics, numericAudit, h, hl]
  · simp [extractMetrics]
    norm_num
  · have hr : jsRound (0.08 : ℚ) = 0 :=
      jsRound_eq_of _ _ (by norm_num) (by norm_num)
    simp [extractMetrics, numericAudit, hr]

/-- Witness for C4 (amended) at a one-entry field table. -/
theorem extract_cls_spec_amended_witness :
    (extractMetrics
      ⟨some (fun k => if k = "CUMULATIVE_LAYOUT_SHIFT_SCORE" then
          some ⟨some 20⟩ else none),
        none, none⟩).CLS = some ((20 : ℚ) / 100) :=
  extract_cls_spec_amended.1 _ 20 rfl

/-- One append keeps the history within capacity. -/
theorem saveToHistory_length_le {α : Type} (h : List α) (e : α) :
    (saveToHistory h e).length ≤ MAX_HISTORY := by
  simp only [saveToHistory]
  split_ifs with hl
  · simp
  · simp only [not_lt] at hl
    exact hl

/-- Any append sequence starting within capacity stays within capacity. -/
theorem saveToHistory_foldl_le {α : Type} (es : List α) (h : List α)
    (hh : h.length ≤ MAX_HISTORY) :
    (es.foldl saveToHistory h).length ≤ MAX_HISTORY := by
  induction es generalizing h with
  | nil => exact hh
  | cons e es ih => exact ih _ (saveToHistory_length_le _ _)

/-- C2: `saveToHistory` prepends the new entry and truncates from the tail
to the 50-entry capacity: it equals `take 50` of the prepended list; under
capacity nothing is evicted; at or over capacity exactly the oldest
entries are dropped and the stored length is exactly 50; and after any
nonempty sequence of appends — or any sequence from a within-capacity
start — the length never exceeds 50.  The returned list is the snapshot
written back to storage whole. -/
theorem saveToHistory_spec :
    (∀ (α : Type) (h : List α) (e : α),
      saveToHistory h e = (e :: h).take MAX_HISTORY) ∧
    (∀ (α : Type) (h : List α) (e : α), h.length < MAX_HISTORY →
      saveToHistory h e = e :: h) ∧
    (∀ (α : Type) (h : List α) (e : α), MAX_HISTORY ≤ h.length →
      saveToHistory h e = e :: h.take (MAX_HISTORY - 1) ∧
      (saveToHistory h e).length = MAX_HISTORY) ∧
    (∀ (α : Type) (h : List α) (es : List α), h.length ≤ MAX_HISTORY →
      (es.foldl saveToHistory h).length ≤ MAX_HISTORY) ∧
    (∀ (α : Type) (h : List α) (es : List α), es ≠ [] →
      (es.foldl saveToHistory h).length ≤ MAX_HISTORY) := by
  have htake : ∀ (α : Type) (h : List α) (e : α),
      saveToHistory h e = (e :: h).take MAX_HISTORY := by
    intro α h e
    simp only [saveToHistory]
    split_ifs with hl
    · rfl
    · simp only [not_lt] at hl
      exact (List.take_of_length_le hl).symm
  refine ⟨htake, ?_, ?_, fun α h es _ => saveToHistory_foldl_le es h ‹_›, ?_⟩
  · intro α h e hlt
    rw [htake]
    exact List.take_of_length_le (by simp only [List.length_cons]; omega)
  · intro α h e hge
    constructor
    · rw [htake]
      show (e :: h).take (49 + 1) = _
      rw [List.take_succ_cons]
      exact rfl
    · rw [htake]
      simp only [List.length_take, List.length_cons]
      omega
  · intro α h es hne
    rcases es with _ | ⟨e, es⟩
    · exact absurd rfl hne
    · exact saveToHistory_foldl_le es _ (saveToHistory_length_le h e)

/-- Witness for C2: an under-capacity append, the length bound after two
appends to an empty store, and eviction at exact capacity. -/
theorem saveToHistory_spec_witness :
    saveToHistory [1, 2] 0 = [0, 1, 2] ∧
    (([3, 4] : List ℕ).foldl saveToHistory []).length ≤ MAX_HISTORY ∧
    saveToHistory (List.replicate 50 (7 : ℕ)) 0 =
      0 :: (List.replicate 50 (7 : ℕ)).take 49 :=
  ⟨saveToHistory_spec.2.1 ℕ [1, 2] 0 (by decide),
    saveToHistory_spec.2.2.2.2 ℕ [] [3, 4] (by decide),
    (saveToHistory_spec.2.2.1 ℕ (List.replicate 50 (7 : ℕ)) 0
      (by simp [MAX_HISTORY])).1⟩

/-- C9 counterexample: `splice(-1, 1)` on a two-element list removes the
last element — a negative index is out of range (it names no element of
the list) yet the call is not a no-op. -/
theorem removeAt_oob_counterexample :
    removeAt [(10 : ℕ), 20] (-1) = [10] ∧
    removeAt [(10 : ℕ), 20] (-1) ≠ [10, 20] := by
  decide

/-- C9 (amended): for every index at or beyond the length, `removeAt` is a
silent no-op; for every in-range non-negative index exactly that element
is removed with the relative order of the rest preserved; but a negative
index follows JavaScript splice semantics — it counts back from the end,
clamped at 0 — and removes an element when the list is nonempty. -/
theorem removeAt_spec_amended :
    (∀ (α : Type) (l : List α) (idx : Int), (l.length : Int) ≤ idx →
      removeAt l idx = l) ∧
    (∀ (α : Type) (l : List α) (i : Nat), i < l.length →
      removeAt l (i : Int) = l.take i ++ l.drop (i + 1) ∧
      (removeAt l (i : Int)).length + 1 = l.length) ∧
    (∀ (α : Type) (l : List α) (idx : Int), idx < 0 →
      removeAt l idx = removeAt l (max ((l.length : Int) + idx) 0)) := by
  refine ⟨?_, ?_, ?_⟩
  · intro α l idx hge
    simp only [removeAt]
    rw [if_neg (by omega)]
    have hs : (min idx (l.length : Int)).toNat = l.length := by omega
    rw [hs, List.take_length, List.drop_eq_nil_of_le (by omega),
      List.append_nil]
  · intro α l i hlt
    simp only [removeAt]
    rw [if_neg (by omega)]
    have hs : (min (i : Int) (l.length : Int)).toNat = i := by omega
    rw [hs]
    refine ⟨rfl, ?_⟩
    simp only [List.length_append, List.length_take, List.length_drop]
    omega
  · intro α l idx hneg
    simp only [removeAt]
    rw [if_pos hneg, if_neg (by omega)]
    have hs : (max ((l.length : Int) + idx) 0).toNat =
        (min (max ((l.length : Int) + idx) 0) (l.length : Int)).toNat := by
      omega
    rw [hs]

/-- Witness for C9 (amended): a beyond-length no-op and an in-range
removal. -/
theorem removeAt_spec_amended_witness :
    removeAt [(1 : ℕ), 2, 3] 5 = [1, 2, 3] ∧
    removeAt [(1 : ℕ), 2, 3] ((1 : Nat) : Int) =
      [(1 : ℕ), 2, 3].take 1 ++ [(1 : ℕ), 2, 3].drop 2 :=
  ⟨removeAt_spec_amended.1 ℕ [1, 2, 3] 5 (by decide),
    (removeAt_spec_amended.2.1 ℕ [1, 2, 3] 1 (by decide)).1⟩

/-- Un-doubling parses back exactly what quote-doubling produced. -/
theorem csvUnquoteBody_escQuotes (l : List Char) :
    csvUnquoteBody (escQuotes l ++ ['"']) = some l := by
  induction l with
  | nil => rfl
  | cons c cs ih =>
    by_cases hc : c = '"'
    · subst hc
      simp [escQuotes, csvUnquoteBody, ih]
    · simp [escQuotes, csvUnquoteBody, hc, ih]

/-- C8: the Export Encoder yields no output for an empty history; for a
history of `n ≥ 1` records it yields the newline-join of exactly `n + 1`
rows with the header row first; every field is enclosed in double quotes
with embedded quotes doubled, and standard CSV field parsing recovers the
original field text. -/
theorem exportHistoryCSV_spec :
    (∀ iso, exportHistoryCSV iso [] = none) ∧
    (∀ iso history, history ≠ [] →
      exportHistoryCSV iso history = some (String.intercalate "\n"
        ((csvHeaders :: history.map (csvRow iso)).map
          (fun r => String.intercalate "," (r.map csvField)))) ∧
      (csvHeaders :: history.map (csvRow iso)).length = history.length + 1) ∧
    (∀ s, csvField s = "\"" ++ String.mk (escQuotes s.data) ++ "\"") ∧
    (∀ s, csvParseField (csvField s) = some s) := by
  refine ⟨fun _ => rfl, ?_, fun s => rfl, ?_⟩
  · intro iso history hne
    constructor
    · simp [exportHistoryCSV, hne]
    · simp
  · intro s
    simp [csvField, csvParseField, csvUnquoteBody_escQuotes]

/-- Witness for C8 at a one-record history: two rows, and a quoted field
with an embedded quote round-trips. -/
theorem exportHistoryCSV_spec_witness :
    (csvHeaders :: ([(⟨"http://a", "mobile", some 95, some 1200, none,
        none, none, none, none, "2024-01-01"⟩ : HistRecord)].map
          (csvRow (fun s => s)))).length =
      [(⟨"http://a", "mobile", some 95, some 1200, none, none, none,
        none, none, "2024-01-01"⟩ : HistRecord)].length + 1 ∧
    csvParseField (csvField "say \"hi\"") = some "say \"hi\"" :=
  ⟨(exportHistoryCSV_spec.2.1 (fun s => s) _ (by simp)).2,
    exportHistoryCSV_spec.2.2.2 "say \"hi\""⟩

/-- C7 counterexample: durable data holding the JSON text `"x"` — a valid
JSON string, but not parseable as the persisted collection — makes
`getHistory` return that string itself (`JSON.parse(...) || []` keeps any
truthy parse result), not an empty sequence. -/
theorem getHistory_nonlist_counterexample :
    getHistory (some "\"x\"") = Json.str "x" ∧
    getHistory (some "\"x\"") ≠ Json.arr [] := by
  have h : getHistory (some "\"x\"") = Json.str "x" := rfl
  refine ⟨h, ?_⟩
  rw [h]
  intro hc
  exact Json.noConfusion hc

/-- C7 (amended): `getHistory` returns the empty array when the history
key is missing, when the stored text is not parseable as JSON (the thrown
error is caught, never propagated), or when it parses to a falsy value;
in every case it returns either the empty array or the truthy parsed
value — stored text parsing to a truthy non-array value is returned
as-is, not replaced by an empty sequence. -/
theorem getHistory_spec_amended :
    getHistory none = Json.arr [] ∧
    (∀ s, jsonParse s = none → getHistory (some s) = Json.arr []) ∧
    (∀ s j, jsonParse s = some j → jsTruthy j = false →
      getHistory (some s) = Json.arr []) ∧
    (∀ s, getHistory (some s) = Json.arr [] ∨
      ∃ j, jsonParse s = some j ∧ jsTruthy j = true ∧
        getHistory (some s) = j) := by
  refine ⟨rfl, ?_, ?_, ?_⟩
  · intro s h
    simp [getHistory, h]
  · intro s j h ht
    simp [getHistory, h, ht]
  · intro s
    rcases hj : jsonParse s with _ | j
    · left
      simp [getHistory, hj]
    · rcases htr : jsTruthy j with _ | _
      · left
        simp [getHistory, hj, htr]
      · right
        exact ⟨j, rfl, htr, by simp [getHistory, hj, htr]⟩

/-- Witness for C7 (amended): unparseable text and a falsy parse both
load as the empty array. -/
theorem getHistory_spec_amended_witness :
    getHistory (some "not json") = Json.arr [] ∧
    getHistory (some "false") = Json.arr [] :=
  ⟨getHistory_spec_amended.2.1 "not json" rfl,
    getHistory_spec_amended.2.2.1 "false" (Json.bool false) rfl rfl⟩

end CWV
